import Mathlib

/-!
Shallow embedding of `src/smart_info.cpp` (a SMART info viewer driving
`smartctl`).  C++ `std::string` values are byte strings; we model them as
`List Nat` (one `Nat` per byte, always < 256 for the inputs considered).
All definitions are direct translations of the corresponding C++ code;
external effects (running `smartctl`) are modelled as inputs.
-/

namespace SmartInfo

/-- A byte string (`std::string`), one `Nat` per byte. -/
abbrev Str := List Nat

/-- Bytes of a Lean string literal (all literals used are ASCII, so
codepoint = byte). -/
def bytes (s : String) : Str := s.data.map Char.toNat

/-- C locale `isspace` on a byte: space (32) or `\t \n \v \f \r` (9..13). -/
def isSpaceB (b : Nat) : Bool := decide (b = 32 ∨ (9 ≤ b ∧ b ≤ 13))

/-- ASCII decimal digit. -/
def isDigitB (b : Nat) : Bool := decide (48 ≤ b ∧ b ≤ 57)

/-- Character class `[0-9,]` of the number regex. -/
def isDigitCommaB (b : Nat) : Bool := isDigitB b || b == 44

/-- Character class `[A-Za-z%.]` of the unit-token regex. -/
def isUnitB (b : Nat) : Bool :=
  decide ((65 ≤ b ∧ b ≤ 90) ∨ (97 ≤ b ∧ b ≤ 122) ∨ b = 37 ∨ b = 46)

/-- Erase leading whitespace (the `ltrim` lambdas in the C++). -/
def ltrim (l : Str) : Str := l.dropWhile isSpaceB

/-- Pop trailing whitespace (the `rtrim` lambdas in the C++). -/
def rtrim (l : Str) : Str := (l.reverse.dropWhile isSpaceB).reverse

/-- Trim front then back (the `trim` lambda in `parse_nvme_section` and the
`ltrim`/`rtrim` pair applied to each line in `main`). -/
def trimLR (l : Str) : Str := rtrim (ltrim l)

/-- Trim back then front (order used on the identity values in `main`:
`rtrim(kv[...]); ltrim(kv[...])`). -/
def trimRL (l : Str) : Str := ltrim (rtrim l)

/-- `s.rfind(p, 0) == 0`, i.e. `p` is a prefix of `s`. -/
def startsWith : Str → Str → Bool
  | [], _ => true
  | _ :: _, [] => false
  | p :: ps, c :: cs => p == c && startsWith ps cs

/-- Everything after the first `:` (`substr(p+1)` with `p = find(':')`);
the C++ only evaluates this when a `:` is known to be present. -/
def afterColon (l : Str) : Str := (l.dropWhile (fun c => !(c == 58))).drop 1

/-- Bytes of `"Device Model:"`. -/
def pDeviceModel : Str := [68, 101, 118, 105, 99, 101, 32, 77, 111, 100, 101, 108, 58]

/-- Bytes of `"Model Number:"`. -/
def pModelNumber : Str := [77, 111, 100, 101, 108, 32, 78, 117, 109, 98, 101, 114, 58]

/-- Bytes of `"Serial Number:"`. -/
def pSerialNumber : Str := [83, 101, 114, 105, 97, 108, 32, 78, 117, 109, 98, 101, 114, 58]

/-- Bytes of `"Firmware Version:"`. -/
def pFirmwareVersion : Str := [70, 105, 114, 109, 119, 97, 114, 101, 32, 86, 101, 114, 115, 105, 111, 110, 58]

/-- Bytes of `"SMART/Health Information"`. -/
def pSmartHealth : Str := [83, 77, 65, 82, 84, 47, 72, 101, 97, 108, 116, 104, 32, 73, 110, 102, 111, 114, 109, 97, 116, 105, 111, 110]

/-- Bytes of `"Error Information"`. -/
def pErrorInfo : Str := [69, 114, 114, 111, 114, 32, 73, 110, 102, 111, 114, 109, 97, 116, 105, 111, 110]

/-- Bytes of `"Self-test Log"`. -/
def pSelfTest : Str := [83, 101, 108, 102, 45, 116, 101, 115, 116, 32, 76, 111, 103]

/-- Bytes of `"==="`. -/
def pTripleEq : Str := [61, 61, 61]

/-- State of the line loop in `main`: the `kv` map (whose only possible
keys are `model`, `serial`, `firmware`), the collected `nvme_lines`, and
the `in_nvme` flag. -/
structure ScanState where
  model : Option Str
  serial : Option Str
  firmware : Option Str
  nvme_lines : List Str
  in_nvme : Bool
deriving DecidableEq

/-- Initial state of the loop in `main`. -/
def initState : ScanState :=
  { model := none, serial := none, firmware := none, nvme_lines := [], in_nvme := false }

/-- One iteration of the `while (getline(ss,line))` loop in `main`
(lines 200-229 of `smart_info.cpp`). -/
def processLine (st : ScanState) (line : Str) : ScanState :=
  let t := trimLR line
  if t.isEmpty then st
  else if startsWith pDeviceModel t || startsWith pModelNumber t then
    { st with model := some (trimRL (afterColon t)) }
  else if startsWith pSerialNumber t then
    { st with serial := some (trimRL (afterColon t)) }
  else if startsWith pFirmwareVersion t then
    { st with firmware := some (trimRL (afterColon t)) }
  else if startsWith pSmartHealth t then
    { st with in_nvme := true }
  else if st.in_nvme then
    if startsWith pErrorInfo t || startsWith pSelfTest t || startsWith pTripleEq t then
      { st with in_nvme := false }
    else
      { st with nvme_lines := st.nvme_lines ++ [t] }
  else st

/-- The whole line loop of `main`. -/
def parseLines (ls : List Str) : ScanState := ls.foldl processLine initState

/-- `getline` over an `istringstream`: split at `\n`; a trailing newline
does not yield a final empty line, and the empty input yields no lines. -/
def splitAux : Str → Str → List Str
  | [], acc => [acc.reverse]
  | 10 :: [], acc => [acc.reverse]
  | 10 :: (c :: rest), acc => acc.reverse :: splitAux (c :: rest) []
  | c :: rest, acc => splitAux rest (c :: acc)

/-- Split a captured report into lines, `getline`-style. -/
def splitLines : Str → List Str
  | [] => []
  | c :: rest => splitAux (c :: rest) []

/-- `l.find(':')` followed by `substr(0,p)` / `substr(p+1)`; `none` when the
line has no `:` (such lines are skipped by `parse_nvme_section`). -/
def splitColon (l : Str) : Option (Str × Str) :=
  let pre := l.takeWhile (fun c => !(c == 58))
  let post := l.dropWhile (fun c => !(c == 58))
  match post with
  | [] => none
  | _ :: rest => some (pre, rest)

/-- The `transform` pass over the key: `tolower(c == ' ' ? '_' : c)`. -/
def normByte (b : Nat) : Nat :=
  let b1 := if b = 32 then 95 else b
  if 65 ≤ b1 ∧ b1 ≤ 90 then b1 + 32 else b1

/-- The second pass over the key: `if (c == ' ') c = '_'`. -/
def normByte2 (b : Nat) : Nat := if b = 32 then 95 else b

/-- Key normalization in `parse_nvme_section` (lines 101-105): the
`transform` pass followed by the explicit space-to-underscore loop. -/
def normalizeKey (k : Str) : Str := (k.map normByte).map normByte2

/-- The optional trailing unit token of `num_unit_regex`: after the
numeric group, `\s*` then a maximal nonempty run of `[A-Za-z%.]`
(empty result = group 2 did not participate, so `unit` stays `""`). -/
def unitTok (rem : Str) : Str := (rem.dropWhile isSpaceB).takeWhile isUnitB

/-- `regex_search(val, m, num_unit_regex)` for
`^\s*([-+]?[0-9,]+)(?:\s*([A-Za-z%.]+))?`: returns `(m[1], m[2])`, where an
absent group 2 is the empty string, or `none` when the regex does not match
(no `[-+]?[0-9,]+` token at the first non-whitespace position). -/
def numUnitMatch (val : Str) : Option (Str × Str) :=
  let s := val.dropWhile isSpaceB
  match s with
  | [] => none
  | c :: rest =>
    if c = 45 ∨ c = 43 then
      let ds := rest.takeWhile isDigitCommaB
      if ds.isEmpty then none
      else some (c :: ds, unitTok (rest.drop ds.length))
    else
      let ds := s.takeWhile isDigitCommaB
      if ds.isEmpty then none
      else some (ds, unitTok (s.drop ds.length))

/-- `num.erase(remove(num.begin(), num.end(), ','), num.end())`. -/
def stripCommas (l : Str) : Str := l.filter (fun c => !(c == 44))

/-- Value of a digit run. -/
def digitsVal (ds : Str) : Nat := ds.foldl (fun a d => a * 10 + (d - 48)) 0

/-- `std::stoll` wrapped in `try`/`catch`: optional whitespace and sign,
then a digit run; `none` on no digits (`invalid_argument`) or on a value
outside the signed 64-bit range (`out_of_range`). -/
def stoll64 (l : Str) : Option Int :=
  let l1 := l.dropWhile isSpaceB
  let p : Bool × Str :=
    match l1 with
    | 45 :: r => (true, r)
    | 43 :: r => (false, r)
    | _ => (false, l1)
  let ds := p.2.takeWhile isDigitB
  if ds.isEmpty then none
  else
    let v : Int := if p.1 then -(digitsVal ds : Int) else (digitsVal ds : Int)
    if v < -(2 ^ 63) ∨ 2 ^ 63 - 1 < v then none else some v

/-- `regex_search(val, m, bracket_regex)` for `\[(.*)\]`: the C++ only uses
whether it matched, i.e. whether some `[` is followed (strictly) by a `]`. -/
def hasBracket (val : Str) : Bool :=
  ((val.dropWhile (fun c => !(c == 91))).drop 1).any (fun c => c == 93)

/-- `struct Field { string raw; string unit; bool has_num; long long num; }`. -/
structure Field where
  raw : Str
  unit : Str
  has_num : Bool
  num : Int
deriving DecidableEq

/-- Value decomposition of `parse_nvme_section` (lines 106-122).  In the
bracket branch the C++ re-uses `m` for the number regex and then assigns
`f.unit = m[1]`, i.e. the numeric group (empty when the number regex did
not match). -/
def mkField (val : Str) : Field :=
  if hasBracket val then
    match numUnitMatch val with
    | some (numTok, _u) =>
      match stoll64 (stripCommas numTok) with
      | some n => { raw := val, unit := numTok, has_num := true, num := n }
      | none => { raw := val, unit := numTok, has_num := false, num := 0 }
    | none => { raw := val, unit := [], has_num := false, num := 0 }
  else
    match numUnitMatch val with
    | some (numTok, uTok) =>
      match stoll64 (stripCommas numTok) with
      | some n => { raw := val, unit := uTok, has_num := true, num := n }
      | none => { raw := val, unit := uTok, has_num := false, num := 0 }
    | none => { raw := val, unit := [], has_num := false, num := 0 }

/-- `std::string operator<`: lexicographic comparison of byte strings. -/
def lexLt : Str → Str → Bool
  | [], [] => false
  | [], _ :: _ => true
  | _ :: _, [] => false
  | a :: as, b :: bs => if a < b then true else if b < a then false else lexLt as bs

/-- `out[k] = f` on a `std::map<string, Field>`, represented as the
association list of the map in its (sorted) iteration order. -/
def insertSorted (k : Str) (f : Field) : List (Str × Field) → List (Str × Field)
  | [] => [(k, f)]
  | (k', f') :: rest =>
    if lexLt k k' then (k, f) :: (k', f') :: rest
    else if lexLt k' k then (k', f') :: insertSorted k f rest
    else (k, f) :: rest

/-- One iteration of the loop in `parse_nvme_section` (lines 90-124). -/
def nvmeStep (acc : List (Str × Field)) (l : Str) : List (Str × Field) :=
  match splitColon l with
  | none => acc
  | some (key, val) =>
    insertSorted (normalizeKey (trimLR key)) (mkField (trimLR val)) acc

/-- `parse_nvme_section` (lines 86-126): a `map<string, Field>` built from
the collected NVMe-section lines. -/
def parse_nvme_section (ls : List Str) : List (Str × Field) := ls.foldl nvmeStep []

/-- The parsed report: the identity fields of `kv` plus the NVMe map. -/
structure ParsedReport where
  model : Option Str
  serial : Option Str
  firmware : Option Str
  nvme : List (Str × Field)
deriving DecidableEq

/-- The report with nothing recognized. -/
def emptyReport : ParsedReport := { model := none, serial := none, firmware := none, nvme := [] }

/-- The parsing part of `main` (lines 193-231) applied to the captured
`smartctl -a` output. -/
def parse_report (s : Str) : ParsedReport :=
  let st := parseLines (splitLines s)
  { model := st.model, serial := st.serial, firmware := st.firmware,
    nvme := parse_nvme_section st.nvme_lines }

/-- Lowercase hex digit of `snprintf("%04x", c)`. -/
def hexDig (n : Nat) : Nat := if n < 10 then 48 + n else 87 + n

/-- One byte of `json_escape` (lines 62-82). -/
def escByte (b : Nat) : Str :=
  if b = 34 then [92, 34]
  else if b = 92 then [92, 92]
  else if b = 8 then [92, 98]
  else if b = 12 then [92, 102]
  else if b = 10 then [92, 110]
  else if b = 13 then [92, 114]
  else if b = 9 then [92, 116]
  else if b < 32 then [92, 117, 48, 48, hexDig (b / 16), hexDig (b % 16)]
  else [b]

/-- `json_escape`. -/
def json_escape (s : Str) : Str := (s.map escByte).flatten

/-- `ostringstream << (long long)`: decimal digits with a `-` for negative
values. -/
def decimalStr (i : Int) : Str :=
  (if i < 0 then [45] else []) ++ (Nat.toDigits 10 i.natAbs).map Char.toNat

/-- The identity part of the `kv` map passed to `build_json_from_parsed`:
`main` only ever writes the keys `model`, `serial`, `firmware`. -/
structure Kv where
  model : Option Str
  serial : Option Str
  firmware : Option Str
deriving DecidableEq

/-- The `kv` map in its `std::map<string,string>` iteration order, which is
lexicographic on the keys: `"firmware" < "model" < "serial"`. -/
def kvPairs (kv : Kv) : List (Str × Str) :=
  (match kv.firmware with | none => [] | some v => [(bytes "firmware", v)]) ++
  (match kv.model with | none => [] | some v => [(bytes "model", v)]) ++
  (match kv.serial with | none => [] | some v => [(bytes "serial", v)])

/-- One top-level `"key": "value"` entry (line 134). -/
def topEntryStr (k v : Str) : Str :=
  bytes "\n  \"" ++ json_escape k ++ bytes "\": \"" ++ json_escape v ++ bytes "\""

/-- One entry of the `nvme_health` object (lines 141-145). -/
def nvmeEntryStr (k : Str) (f : Field) : Str :=
  bytes "\n    \"" ++ json_escape k ++ bytes "\": \x7b" ++
  bytes "\n      \"raw\": \"" ++ json_escape f.raw ++ bytes "\"" ++
  (if f.has_num then bytes ",\n      \"value\": " ++ decimalStr f.num else []) ++
  (if f.unit.isEmpty then [] else bytes ",\n      \"unit\": \"" ++ json_escape f.unit ++ bytes "\"") ++
  bytes "\n    \x7d"

/-- The `add_comma` / `first` pattern of the emitter: emit the entries in
order, separated by `,`. -/
def commaFold (entries : List Str) : Str :=
  (entries.foldl (fun (acc : Str × Bool) e =>
    (acc.1 ++ (if acc.2 then [] else [44]) ++ e, false)) ([], true)).1

/-- The `nvme_health` block (lines 136-148). -/
def nvmeHealthEntry (nvme : List (Str × Field)) : Str :=
  bytes "\n  \"nvme_health\": \x7b" ++
  commaFold (nvme.map (fun p => nvmeEntryStr p.1 p.2)) ++ bytes "\n  \x7d"

/-- The `raw` placeholder entry (line 150). -/
def rawEntry : Str :=
  bytes "\n  \"raw\": \"REDACTED_RAW_NOT_INCL_IF_NOT_REQUESTED\""

/-- `build_json_from_parsed` (lines 128-154). -/
def build_json_from_parsed (kv : Kv) (nvme : List (Str × Field)) (include_raw : Bool) : Str :=
  let entries :=
    (kvPairs kv).map (fun p => topEntryStr p.1 p.2) ++
    (if nvme.isEmpty then [] else [nvmeHealthEntry nvme]) ++
    (if include_raw then [rawEntry] else [])
  bytes "\x7b" ++ commaFold entries ++ bytes "\n\x7d\n"

/-- Comma-separated join, written declaratively (used to state the layout
of the emitted object). -/
def commaSeparated : List Str → Str
  | [] => []
  | [e] => e
  | e :: e2 :: rest => e ++ 44 :: commaSeparated (e2 :: rest)

/-- Index of the first occurrence of `pat` as a contiguous substring. -/
def firstSubIdx (pat : Str) : Str → Option Nat
  | [] => if startsWith pat [] then some 0 else none
  | c :: rest =>
    if startsWith pat (c :: rest) then some 0
    else (firstSubIdx pat rest).map (· + 1)

/-- Result of the argument scan in `main` (lines 158-165): either the
`-h`/`--help` early return, or the collected options. -/
inductive ArgResult where
  | help : ArgResult
  | opts (list_mode : Bool) (device : String) (json_out : Bool) (include_raw : Bool) : ArgResult
deriving DecidableEq

/-- The argument loop of `main`.  `--device` consumes the next argument
when one exists (`i+1 < argc`); a trailing `--device` matches no branch
(the `&&` fails and the string is not `-h`/`--help`) and is ignored. -/
def scanArgs : List String → Bool → String → Bool → Bool → ArgResult
  | [], lm, dev, j, r => .opts lm dev j r
  | "--list" :: rest, _, dev, j, r => scanArgs rest true dev j r
  | "--json" :: rest, lm, dev, _, r => scanArgs rest lm dev true r
  | "--include-raw" :: rest, lm, dev, j, _ => scanArgs rest lm dev j true
  | "--device" :: v :: rest, lm, _, j, r => scanArgs rest lm v j r
  | ["--device"], lm, dev, j, r => .opts lm dev j r
  | "-h" :: _, _, _, _, _ => .help
  | "--help" :: _, _, _, _, _ => .help
  | _ :: rest, lm, dev, j, r => scanArgs rest lm dev j r

/-- The usage line printed for `-h`/`--help`. -/
def usageStr : String := "Usage: smart_info [--list] [--device /dev/sda] [--json] [--include-raw]\n"

/-- The fatal message when `smartctl` is not locatable. -/
def notFoundMsg : String := "smartctl not found. Install smartmontools."

/-- The hint when neither `--device` nor `--list` was captured. -/
def usageHintMsg : String := "Please specify --device or --list"

/-- Observable outcome of a run: the exit code, what (if anything) was
printed to standard output by the help path, and the single diagnostic
line (if any) printed to standard error.  Device/report output on standard
output is not part of the exit-code model. -/
structure MainResult where
  exitCode : Nat
  usage : Option String
  errMsg : Option String
deriving DecidableEq

/-- Control flow of `main` (lines 156-248).  `smartctl_found` models
whether `find_smartctl()` (an external PATH probe) returns a non-empty
path.  All paths past the two fatal checks run to the final `return 0`. -/
def runMain (args : List String) (smartctl_found : Bool) : MainResult :=
  match scanArgs args false "" false false with
  | .help => { exitCode := 0, usage := some usageStr, errMsg := none }
  | .opts list_mode device _ _ =>
    if smartctl_found = false then
      { exitCode := 2, usage := none, errMsg := some notFoundMsg }
    else if list_mode then
      { exitCode := 0, usage := none, errMsg := none }
    else if device = "" then
      { exitCode := 2, usage := none, errMsg := some usageHintMsg }
    else
      { exitCode := 0, usage := none, errMsg := none }

/-- A line none of whose recognized prefixes match after trimming: such a
line can neither set an identity field nor switch the section state. -/
def unrecogLine (l : Str) : Bool :=
  let t := trimLR l
  !(startsWith pDeviceModel t) && !(startsWith pModelNumber t) &&
  !(startsWith pSerialNumber t) && !(startsWith pFirmwareVersion t) &&
  !(startsWith pSmartHealth t)

/-- The report of the C1 boundary-crossing scenario (spec S6): a firmware
line, the NVMe marker, a firmware line inside the section, a terminator. -/
def c1Input : Str :=
  bytes "Firmware Version: 1.0\nSMART/Health Information (NVMe Log 0x02)\nFirmware Version: 9.9.9\nError Information (NVMe Log 0x01)\n"

/-- A `kv` map with all three identity fields present. -/
def c5Kv : Kv := { model := some (bytes "M1"), serial := some (bytes "S1"), firmware := some (bytes "F1") }

/-- JSON output for `c5Kv`, no NVMe entries, raw not requested. -/
def c5Out : Str := build_json_from_parsed c5Kv [] false

/-- The Field produced for a line whose value is empty after trimming. -/
def emptyField : Field := { raw := [], unit := [], has_num := false, num := 0 }

/-! ## Helper lemmas -/

/-- Comparing against a prefix only inspects as many characters as the
prefix has, so a sufficiently long left part decides the comparison. -/
theorem startsWith_append_eq (p : Str) :
    ∀ l w : Str, p.length ≤ l.length → startsWith p (l ++ w) = startsWith p l := by
  induction p with
  | nil => intro l w _; rfl
  | cons a ps ih =>
    intro l w h
    cases l with
    | nil => simp at h
    | cons b ls =>
      simp only [List.cons_append, startsWith, List.append_eq]
      rw [ih ls w (Nat.le_of_succ_le_succ h)]

/-- `stoll64` only succeeds inside the signed 64-bit range. -/
theorem stoll64_some_range (l : Str) (n : Int) (h : stoll64 l = some n) :
    -(2 ^ 63) ≤ n ∧ n ≤ 2 ^ 63 - 1 := by
  simp only [stoll64] at h
  split at h
  · exact absurd h (by simp)
  · split at h <;>
    · split at h
      · exact absurd h (by simp)
      · rename_i hrange
        push_neg at hrange
        injection h with h'
        subst h'
        exact hrange

/-! ## C2 -/

/-- C2: the claim says the unit of `1,234,567 [632 GB]` is the bracket
content `632 GB`; the code instead stores the numeric group `1,234,567`
(`f.unit = m[1]` re-uses the number-regex match).  The value is the parsed
leading number, as claimed. -/
theorem c2_bracket_unit_eval :
    mkField (bytes "1,234,567 [632 GB]") =
      { raw := bytes "1,234,567 [632 GB]", unit := bytes "1,234,567",
        has_num := true, num := 1234567 } ∧
    bytes "1,234,567" ≠ bytes "632 GB" := by decide

/-! ## C3 -/

/-- C3 counterexample: for the value `0x00` the code extracts the leading
`0` as the numeric value and `x` as the unit token, so value and unit are
not both absent as the claim states. -/
theorem c3_counterexample :
    (mkField (bytes "0x00")).has_num = true ∧
    (mkField (bytes "0x00")).unit = bytes "x" ∧
    ¬((mkField (bytes "0x00")).has_num = false ∧ (mkField (bytes "0x00")).unit = []) := by decide

/-- C3 amended: an NVMe attribute line with value `0x00` produces a Field
with raw `0x00`, value `0` (the leading digit `0` matches the anchored
numeric pattern) and unit `x` (the alphabetic run after the digit). -/
theorem c3_amended_hex_value :
    parse_nvme_section [bytes "Critical Warning:                   0x00"] =
      [(bytes "critical_warning",
        { raw := bytes "0x00", unit := bytes "x", has_num := true, num := 0 })] := by decide

/-! ## C4 -/

/-- C4 counterexample: the line `Foo:   ` (empty value after trimming)
produces a map entry with key `foo` and empty raw, so the map does contain
an entry with empty raw, contrary to the claim. -/
theorem c4_counterexample :
    parse_nvme_section [bytes "Foo:   "] = [(bytes "foo", emptyField)] ∧
    ¬(∀ p ∈ parse_nvme_section [bytes "Foo:   "], p.2.raw ≠ []) := by decide

/-! ## C1 -/

/-- C1 counterexample: in the report `c1Input`, the line
`Firmware Version: 9.9.9` sits after the `SMART/Health Information` marker
and before the `Error Information` terminator, yet it overwrites the
firmware captured in the header (the identity branches of the line loop
run before the `in_nvme` branch). -/
theorem c1_counterexample :
    (parse_report c1Input).firmware = some (bytes "9.9.9") ∧
    (parse_report c1Input).firmware ≠ some (bytes "1.0") := by decide

/-! ## C10 -/

/-- C10: `-h`/`--help` is handled by the argument scan before smartctl
discovery, so the usage line goes to standard output and the exit code is
0 for either flag, whether or not smartctl is locatable (`found = false`
covers the not-installed host). -/
theorem c10_help_before_discovery :
    ∀ found : Bool,
      runMain ["-h"] found = { exitCode := 0, usage := some usageStr, errMsg := none } ∧
      runMain ["--help"] found = { exitCode := 0, usage := some usageStr, errMsg := none } := by
  intro found
  cases found <;> exact ⟨by decide, by decide⟩

/-! ## C6 -/

/-- C6 counterexample: with arguments `["-h"]` on a host where smartctl is
not locatable (`found = false`), the program exits 0, although the claim
makes `smartctl not locatable` (and also `neither --device nor --list`)
imply exit code 2. -/
theorem c6_counterexample :
    (runMain ["-h"] false).exitCode = 0 ∧ ¬((runMain ["-h"] false).exitCode = 2) := by decide

/-! ## C9 -/

/-- C9: the matched numeric token is comma-stripped and read as a signed
64-bit integer: when that read fails to parse or overflows the `value` is
absent; when it succeeds the `value` equals the read and lies in the
64-bit range; with no leading numeric match (e.g. `Unknown`) the `value`
is absent.  The final conjunct shows an overflow (20 nines > 2^63 - 1). -/
theorem c9_value_semantics :
    (∀ val : Str,
      (numUnitMatch val = none → (mkField val).has_num = false) ∧
      (∀ tok u, numUnitMatch val = some (tok, u) →
        (stoll64 (stripCommas tok) = none → (mkField val).has_num = false) ∧
        (∀ n, stoll64 (stripCommas tok) = some n →
          (mkField val).has_num = true ∧ (mkField val).num = n ∧
          -(2 ^ 63) ≤ n ∧ n ≤ 2 ^ 63 - 1))) ∧
    (mkField (bytes "Unknown")).has_num = false ∧
    (mkField (bytes "99,999,999,999,999,999,999")).has_num = false := by
  refine ⟨?_, by decide, by decide⟩
  intro val
  refine ⟨?_, ?_⟩
  · intro hNone
    simp only [mkField, hNone]
    split <;> rfl
  · intro tok u hSome
    refine ⟨?_, ?_⟩
    · intro hst
      simp only [mkField, hSome, hst]
      split <;> rfl
    · intro n hst
      have hr := stoll64_some_range (stripCommas tok) n hst
      simp only [mkField, hSome, hst]
      split <;> exact ⟨rfl, rfl, hr.1, hr.2⟩

/-- C9 witness: the general theorem applied to the value `1,024` (commas
stripped, parsed as 1024). -/
theorem c9_value_semantics_witness :
    (mkField (bytes "1,024")).has_num = true ∧ (mkField (bytes "1,024")).num = 1024 := by
  have h := ((c9_value_semantics.1 (bytes "1,024")).2 (bytes "1,024") [] (by decide)).2
    1024 (by decide)
  exact ⟨h.1, h.2.1⟩

/-! ## C7 -/

/-- A line on which no recognized prefix fires leaves the initial state
unchanged. -/
theorem processLine_init_unrecog (l : Str) (h : unrecogLine l = true) :
    processLine initState l = initState := by
  simp only [unrecogLine, Bool.and_eq_true, Bool.not_eq_true'] at h
  obtain ⟨⟨⟨⟨h1, h2⟩, h3⟩, h4⟩, h5⟩ := h
  simp only [processLine, h1, h2, h3, h4, h5, Bool.or_self, if_false, initState]
  split <;> rfl

/-- A report all of whose lines are unrecognizable parses to the initial
state. -/
theorem parseLines_unrecog :
    ∀ ls : List Str, (∀ l ∈ ls, unrecogLine l = true) → parseLines ls = initState := by
  intro ls h
  induction ls with
  | nil => rfl
  | cons l t ih =>
    have hstep : processLine initState l = initState :=
      processLine_init_unrecog l (h l (List.mem_cons_self l t))
    simp only [parseLines, List.foldl_cons, hstep]
    exact ih fun x hx => h x (List.mem_cons_of_mem l hx)

/-- C7: parsing is total (every definition here is a total function) and
an unrecognizable report yields the empty `ParsedReport`: the empty input
gives all identity fields absent and an empty nvme map, and so does any
input none of whose lines starts (after trimming) with a recognized
prefix. -/
theorem c7_parser_total :
    parse_report [] = emptyReport ∧
    ∀ s : Str, (∀ l ∈ splitLines s, unrecogLine l = true) → parse_report s = emptyReport := by
  refine ⟨rfl, ?_⟩
  intro s h
  have hp := parseLines_unrecog (splitLines s) h
  simp only [parse_report, hp, initState, emptyReport, parse_nvme_section, List.foldl_nil]

/-- C7 witness: a report with two unrecognizable lines (the second even
contains a `:`) parses to the empty report. -/
theorem c7_parser_total_witness :
    parse_report (bytes "hello world\nfoo bar: 17\n") = emptyReport :=
  c7_parser_total.2 (bytes "hello world\nfoo bar: 17\n") (by decide)

/-! ## C8 -/

/-- Key normalization on a single byte is idempotent. -/
theorem normByte_idem (b : Nat) :
    normByte2 (normByte (normByte2 (normByte b))) = normByte2 (normByte b) := by
  simp only [normByte, normByte2]
  split_ifs <;> omega

/-- A normalized byte is neither an uppercase ASCII letter nor a space. -/
theorem normByte_no_upper_no_space (b : Nat) :
    ¬(65 ≤ normByte2 (normByte b) ∧ normByte2 (normByte b) ≤ 90) ∧
    normByte2 (normByte b) ≠ 32 := by
  simp only [normByte, normByte2]
  split_ifs <;> omega

/-- Unfolding `normalizeKey` over a cons cell. -/
theorem normalizeKey_cons (a : Nat) (t : Str) :
    normalizeKey (a :: t) = normByte2 (normByte a) :: normalizeKey t := rfl

/-- C8: key normalization (lowercase ASCII, spaces to `_`, everything else
preserved) is idempotent, and a normalized key contains no uppercase ASCII
letter (65..90) and no space (32). -/
theorem c8_normalize_idempotent :
    ∀ k : Str, normalizeKey (normalizeKey k) = normalizeKey k ∧
      (normalizeKey k).all
        (fun b => !(decide (65 ≤ b ∧ b ≤ 90)) && !(b == 32)) = true := by
  intro k
  induction k with
  | nil => exact ⟨rfl, rfl⟩
  | cons a t ih =>
    refine ⟨?_, ?_⟩
    · rw [normalizeKey_cons, normalizeKey_cons, normByte_idem, ih.1]
    · rw [normalizeKey_cons, List.all_cons, ih.2]
      have h := normByte_no_upper_no_space a
      simp [h.1, h.2]

/-- C6 amended: when the argument scan does not hit `-h`/`--help`, the
exit code is 2 exactly when smartctl is not locatable (then with the fixed
message on standard error) or the scan ended with `--list` absent and no
captured device; every exit code is 0 or 2, and the help path exits 0. -/
theorem c6_amended_exit_codes :
    ∀ (args : List String) (found : Bool),
      ((runMain args found).exitCode = 0 ∨ (runMain args found).exitCode = 2) ∧
      (scanArgs args false "" false false = .help → (runMain args found).exitCode = 0) ∧
      (∀ lm dev j r, scanArgs args false "" false false = .opts lm dev j r →
        ((runMain args found).exitCode = 2 ↔ (found = false ∨ (lm = false ∧ dev = ""))) ∧
        (found = false → (runMain args found).errMsg = some notFoundMsg)) := by
  intro args found
  cases hscan : scanArgs args false "" false false with
  | help =>
    refine ⟨?_, fun _ => ?_, fun lm dev j r hh => ?_⟩
    · left; simp [runMain, hscan]
    · simp [runMain, hscan]
    · exact absurd hh (by simp)
  | opts lm dev j r =>
    refine ⟨?_, fun hh => ?_, fun lm' dev' j' r' hh => ?_⟩
    · simp only [runMain, hscan]
      cases found
      · right; rfl
      · by_cases hlm : lm <;> by_cases hdev : dev = "" <;> simp [hlm, hdev]
    · exact absurd hh (by simp)
    · injection hh with e1 e2 e3 e4
      subst e1; subst e2
      constructor
      · simp only [runMain, hscan]
        cases found
        · simp
        · by_cases hlm : lm <;> by_cases hdev : dev = "" <;> simp [hlm, hdev]
      · intro hf
        subst hf
        simp [runMain, hscan]

/-- C6 witness: applying the amended theorem at `["--json"]` on a host
without smartctl gives exit code 2. -/
theorem c6_amended_exit_codes_witness : (runMain ["--json"] false).exitCode = 2 :=
  (((c6_amended_exit_codes ["--json"] false).2.2 false "" true false (by decide)).1).mpr
    (Or.inl rfl)

/-! ## C4 amended -/

/-- `takeWhile` up to the appended colon keeps a colon-free key intact. -/
theorem takeWhile_noColon (k : Str) (h : ¬ 58 ∈ k) :
    (k ++ [58]).takeWhile (fun c => !(c == 58)) = k := by
  induction k with
  | nil => rfl
  | cons a t ih =>
    simp only [List.mem_cons, not_or] at h
    simp only [List.cons_append, List.takeWhile_cons]
    have ha : (!(a == 58)) = true := by
      simp only [Bool.not_eq_eq_eq_not, Bool.not_true, beq_eq_false_iff_ne]
      exact Ne.symm h.1
    rw [ha, ih h.2]
    simp

/-- `dropWhile` up to the appended colon leaves exactly the colon. -/
theorem dropWhile_noColon (k : Str) (h : ¬ 58 ∈ k) :
    (k ++ [58]).dropWhile (fun c => !(c == 58)) = [58] := by
  induction k with
  | nil => rfl
  | cons a t ih =>
    simp only [List.mem_cons, not_or] at h
    simp only [List.cons_append, List.dropWhile_cons]
    have ha : (!(a == 58)) = true := by
      simp only [Bool.not_eq_eq_eq_not, Bool.not_true, beq_eq_false_iff_ne]
      exact Ne.symm h.1
    rw [ha]
    simp only [if_true]
    exact ih h.2

/-- Splitting `k ++ [58]` at the first colon when `k` has none. -/
theorem splitColon_append_colon (k : Str) (h : ¬ 58 ∈ k) :
    splitColon (k ++ [58]) = some (k, []) := by
  simp only [splitColon, takeWhile_noColon k h, dropWhile_noColon k h]

/-- C4 amended: an NVMe-section line made of a colon-free key part
followed by `:` (so the value is empty after trimming) is NOT discarded:
it produces an entry whose key is the normalized trimmed key part and
whose Field has empty raw, absent value and empty unit. -/
theorem c4_amended_empty_value_entry (k : Str) (h : ¬ 58 ∈ k) :
    parse_nvme_section [k ++ [58]] = [(normalizeKey (trimLR k), emptyField)] := by
  simp only [parse_nvme_section, List.foldl_cons, List.foldl_nil, nvmeStep,
    splitColon_append_colon k h]
  rfl

/-- C4 amended witness: the line `Foo:` produces the entry
`foo ↦ (raw = "", no value, no unit)`. -/
theorem c4_amended_empty_value_entry_witness :
    parse_nvme_section [bytes "Foo:"] = [(bytes "foo", emptyField)] := by
  have h := c4_amended_empty_value_entry (bytes "Foo") (by decide)
  rw [show bytes "Foo:" = bytes "Foo" ++ [58] from by decide] at *
  rw [h]
  decide

/-! ## C1 amended -/

/-- Left-trimming does not touch a line that starts with the
`Firmware Version:` prefix. -/
theorem ltrim_pF_append (v : Str) : ltrim (pFirmwareVersion ++ v) = pFirmwareVersion ++ v := by
  rw [ltrim, List.dropWhile_append]
  rw [show pFirmwareVersion.dropWhile isSpaceB = pFirmwareVersion from by decide]
  simp [pFirmwareVersion]

/-- Right-trimming a line that starts with the `Firmware Version:` prefix
trims only the part after the prefix (the prefix ends in `:`). -/
theorem rtrim_pF_append (v : Str) : rtrim (pFirmwareVersion ++ v) = pFirmwareVersion ++ rtrim v := by
  simp only [rtrim, List.reverse_append, List.dropWhile_append]
  rw [show pFirmwareVersion.reverse.dropWhile isSpaceB = pFirmwareVersion.reverse from by decide]
  by_cases hc : (v.reverse.dropWhile isSpaceB).isEmpty
  · rw [if_pos hc, List.reverse_reverse]
    rw [List.isEmpty_iff] at hc
    rw [hc]
    rfl
  · rw [if_neg hc, List.reverse_append, List.reverse_reverse]

/-- Right-trimming is idempotent. -/
theorem rtrim_idem (v : Str) : rtrim (rtrim v) = rtrim v := by
  simp only [rtrim, List.reverse_reverse, List.dropWhile_idempotent]

/-- The value-trimming pass absorbs a preceding right trim. -/
theorem trimRL_rtrim (v : Str) : trimRL (rtrim v) = trimRL v := by
  simp only [trimRL, rtrim_idem]

/-- The part after the first colon of a `Firmware Version:`-prefixed line
is everything after the prefix (whose only colon is its last byte). -/
theorem afterColon_pF_append (w : Str) : afterColon (pFirmwareVersion ++ w) = w := by
  rw [afterColon, List.dropWhile_append]
  rw [show pFirmwareVersion.dropWhile (fun c => !(c == 58)) = [58] from by decide]
  simp

/-- A head mismatch refutes the prefix test. -/
theorem startsWith_head_ne (a b : Nat) (ps l : Str) (h : (a == b) = false) :
    startsWith (a :: ps) (b :: l) = false := by
  simp [startsWith, h]

/-- C1 amended: the identity branches of the line loop run before the
`in_nvme` branch, so a line starting with `Firmware Version:` updates the
firmware field in EVERY state — in particular between the
`SMART/Health Information` marker and a terminator — and changes nothing
else (so the line is also never added to the nvme lines). -/
theorem c1_amended_identity_any_state (st : ScanState) (v : Str) :
    processLine st (pFirmwareVersion ++ v) = { st with firmware := some (trimRL v) } := by
  have ht : trimLR (pFirmwareVersion ++ v) = pFirmwareVersion ++ rtrim v := by
    rw [trimLR, ltrim_pF_append, rtrim_pF_append]
  have e0 : (pFirmwareVersion ++ rtrim v).isEmpty = false := by
    rw [show pFirmwareVersion ++ rtrim v = 70 :: (pFirmwareVersion.tail ++ rtrim v) from rfl]
    rfl
  have e1 : startsWith pDeviceModel (pFirmwareVersion ++ rtrim v) = false := by
    rw [show pFirmwareVersion ++ rtrim v = 70 :: (pFirmwareVersion.tail ++ rtrim v) from rfl,
      show pDeviceModel = 68 :: pDeviceModel.tail from rfl]
    exact startsWith_head_ne _ _ _ _ (by decide)
  have e2 : startsWith pModelNumber (pFirmwareVersion ++ rtrim v) = false := by
    rw [show pFirmwareVersion ++ rtrim v = 70 :: (pFirmwareVersion.tail ++ rtrim v) from rfl,
      show pModelNumber = 77 :: pModelNumber.tail from rfl]
    exact startsWith_head_ne _ _ _ _ (by decide)
  have e3 : startsWith pSerialNumber (pFirmwareVersion ++ rtrim v) = false := by
    rw [show pFirmwareVersion ++ rtrim v = 70 :: (pFirmwareVersion.tail ++ rtrim v) from rfl,
      show pSerialNumber = 83 :: pSerialNumber.tail from rfl]
    exact startsWith_head_ne _ _ _ _ (by decide)
  have e5 : startsWith pFirmwareVersion (pFirmwareVersion ++ rtrim v) = true := by
    rw [startsWith_append_eq pFirmwareVersion pFirmwareVersion (rtrim v) (le_refl _)]
    decide
  simp only [processLine, ht, e0, e1, e2, e3, e5, Bool.or_self, Bool.false_eq_true,
    if_false, if_true]
  rw [afterColon_pF_append, trimRL_rtrim]

/-! ## C5 -/

/-- The running fold of the emitter, once past the first entry, appends a
comma before every entry. -/
theorem commaFold_go (l : List Str) :
    ∀ acc : Str,
      (l.foldl (fun (a : Str × Bool) e => (a.1 ++ (if a.2 then [] else [44]) ++ e, false))
        (acc, false)).1 = acc ++ (l.map (fun e => 44 :: e)).flatten := by
  induction l with
  | nil => intro acc; simp
  | cons e t ih =>
    intro acc
    simp only [List.foldl_cons, if_false, List.map_cons, List.flatten_cons]
    rw [ih]
    simp [List.append_assoc]

/-- `commaSeparated` in terms of flattening the comma-prefixed tail. -/
theorem commaSeparated_structure :
    ∀ (t : List Str) (e : Str),
      commaSeparated (e :: t) = e ++ (t.map (fun x => 44 :: x)).flatten := by
  intro t
  induction t with
  | nil => intro e; simp [commaSeparated]
  | cons e2 rest ih =>
    intro e
    rw [commaSeparated, ih e2]
    simp

/-- The imperative `add_comma` fold emits exactly the comma-separated
join of the entries. -/
theorem commaFold_eq_commaSeparated (l : List Str) : commaFold l = commaSeparated l := by
  cases l with
  | nil => rfl
  | cons e t =>
    rw [commaSeparated_structure t e, commaFold]
    simp only [List.foldl_cons, if_true, List.nil_append]
    rw [commaFold_go]

/-- Strings that compare `false` both ways under `std::string operator<`
are equal. -/
theorem lexLt_eq_of_not_lt (a : Str) :
    ∀ b : Str, lexLt a b = false → lexLt b a = false → a = b := by
  induction a with
  | nil =>
    intro b h1 _
    cases b with
    | nil => rfl
    | cons y ys => simp [lexLt] at h1
  | cons x xs ih =>
    intro b h1 h2
    cases b with
    | nil => simp [lexLt] at h2
    | cons y ys =>
      rw [lexLt] at h1 h2
      by_cases hxy : x < y
      · rw [if_pos hxy] at h1
        exact absurd h1 (by simp)
      · by_cases hyx : y < x
        · rw [if_pos hyx] at h2
          exact absurd h2 (by simp)
        · rw [if_neg hxy, if_neg hyx] at h1
          rw [if_neg hyx, if_neg hxy] at h2
          have hxe : x = y := by omega
          rw [hxe, ih ys h1 h2]

/-- The head of the map after an insertion is the inserted pair or the old
head. -/
theorem insertSorted_head (k : Str) (f : Field) (l : List (Str × Field)) :
    (insertSorted k f l).head? = some (k, f) ∨ (insertSorted k f l).head? = l.head? := by
  cases l with
  | nil => left; rfl
  | cons p rest =>
    obtain ⟨k', f'⟩ := p
    rw [insertSorted]
    split_ifs
    · left; rfl
    · right; rfl
    · left; rfl

/-- `std::map` insertion keeps the association list strictly sorted. -/
theorem insertSorted_chain (k : Str) (f : Field) :
    ∀ l, List.Chain' (fun a b : Str × Field => lexLt a.1 b.1 = true) l →
      List.Chain' (fun a b : Str × Field => lexLt a.1 b.1 = true) (insertSorted k f l) := by
  intro l
  induction l with
  | nil => intro _; simp [insertSorted]
  | cons p rest ih =>
    obtain ⟨k', f'⟩ := p
    intro hch
    rw [List.chain'_cons'] at hch
    obtain ⟨hhd, htl⟩ := hch
    rw [insertSorted]
    split_ifs with h1 h2
    · rw [List.chain'_cons']
      refine ⟨?_, ?_⟩
      · intro y hy
        simp only [List.head?_cons, Option.mem_def, Option.some.injEq] at hy
        rw [← hy]
        exact h1
      · rw [List.chain'_cons']
        exact ⟨hhd, htl⟩
    · rw [List.chain'_cons']
      refine ⟨?_, ih htl⟩
      intro y hy
      rcases insertSorted_head k f rest with hh | hh
      · rw [hh] at hy
        simp only [Option.mem_def, Option.some.injEq] at hy
        rw [← hy]
        exact h2
      · rw [hh] at hy
        exact hhd y hy
    · have hk : k = k' :=
        lexLt_eq_of_not_lt k k' (by simpa using h1) (by simpa using h2)
      rw [List.chain'_cons']
      refine ⟨?_, htl⟩
      rw [hk]
      exact hhd

/-- Folding `nvmeStep` preserves sortedness of the accumulator. -/
theorem nvmeFold_chain :
    ∀ (ls : List Str) (acc : List (Str × Field)),
      List.Chain' (fun a b : Str × Field => lexLt a.1 b.1 = true) acc →
      List.Chain' (fun a b : Str × Field => lexLt a.1 b.1 = true) (ls.foldl nvmeStep acc) := by
  intro ls
  induction ls with
  | nil => intro acc h; exact h
  | cons l t ih =>
    intro acc h
    rw [List.foldl_cons]
    apply ih
    rw [nvmeStep]
    split
    · exact h
    · exact insertSorted_chain _ _ acc h

/-- C5 counterexample: with all three identity fields present, the first
key emitted is `firmware` (index 4), then `model` (24), then `serial`
(41); in particular `model` does not precede `firmware` as the claimed
order `model, serial, firmware` requires. -/
theorem c5_counterexample :
    firstSubIdx (bytes "\"firmware\"") c5Out = some 4 ∧
    firstSubIdx (bytes "\"model\"") c5Out = some 24 ∧
    firstSubIdx (bytes "\"serial\"") c5Out = some 41 ∧
    ¬((firstSubIdx (bytes "\"model\"") c5Out).getD 0 <
      (firstSubIdx (bytes "\"firmware\"") c5Out).getD 0) := by decide

/-- C5 amended: the emitted object is the comma-separated join of, in
order, the identity entries present in the fixed order `firmware`,
`model`, `serial` (their lexicographic `std::map` order, witnessed by the
`lexLt` conjuncts), then `nvme_health` iff the map is non-empty, then
`raw` iff requested; and the nvme map produced by the parser has its keys
in strictly increasing lexicographic order (so its entries are emitted
sorted). -/
theorem c5_amended_json_layout :
    (∀ (kv : Kv) (nvme : List (Str × Field)) (inc : Bool),
      build_json_from_parsed kv nvme inc =
        bytes "\x7b" ++
        commaSeparated
          ((kvPairs kv).map (fun p => topEntryStr p.1 p.2) ++
           (if nvme.isEmpty then []
            else [bytes "\n  \"nvme_health\": \x7b" ++
              commaSeparated (nvme.map (fun p => nvmeEntryStr p.1 p.2)) ++ bytes "\n  \x7d"]) ++
           (if inc then [rawEntry] else [])) ++
        bytes "\n\x7d\n") ∧
    (∀ ls : List Str,
      List.Chain' (fun a b : Str × Field => lexLt a.1 b.1 = true) (parse_nvme_section ls)) ∧
    lexLt (bytes "firmware") (bytes "model") = true ∧
    lexLt (bytes "model") (bytes "serial") = true := by
  refine ⟨?_, ?_, by decide, by decide⟩
  · intro kv nvme inc
    simp only [build_json_from_parsed, nvmeHealthEntry, commaFold_eq_commaSeparated]
  · intro ls
    exact nvmeFold_chain ls [] List.chain'_nil

end SmartInfo
